import Mathlib

/-!
Verification development for a small equation-solver application
(`src/main.py`): a Kivy GUI around SymPy that parses a single-variable
equation typed as text, checks its degree against the user-selected
equation type (linear or quadratic), solves it symbolically and displays
formatted roots.

The evaluator pipeline of `EquationSolver.solve` is embedded shallowly:

* strings are processed as their underlying character lists;
* the SymPy expression produced by `parse_expr` for the modelled input
  fragment (numerals, the unknown `x`, `+`, `-`, `*`, `**`, parentheses,
  implicit multiplication) is represented by its dense coefficient list
  (`List ℚ`, index = power of `x`);
* `sp.degree` is modelled by `degOf` (with `none` playing the role of
  SymPy's `-oo` on the zero polynomial);
* `sp.solve` is modelled by `sp_solve` on the coefficient list;
* `sp.N(·, n=4)` followed by `str` is modelled by `fmt4` (numeric
  reduction to 4 significant digits);
* every Python `raise`/exception site is an `Except.error` value, and the
  top-level `except Exception` handler of `solve` is the final `match`
  that turns an error into the `"Ошибка: ..."` label text.

Modelling notes for the external collaborators (SymPy, Kivy) whose code is
not in the repository are given at each definition.
-/

attribute [local semireducible] Rat.add Rat.sub Rat.mul Rat.inv

/-! ### Characters and digits -/

/-- Python whitespace characters stripped by `str.strip()` (ASCII fragment). -/
def wsChar (c : Char) : Bool :=
  c == ' ' || c == '\t' || c == '\n' || c == '\r' || c == Char.ofNat 11 || c == Char.ofNat 12

/-- The decimal digit character for `d` (meaningful for `d < 10`). -/
def digitChar (d : ℕ) : Char := Char.ofNat (48 + d)

/-- Most-significant-first decimal digits of `n`, with explicit fuel
(`natDigits (n+1) n` is always enough fuel). -/
def natDigits : ℕ → ℕ → List ℕ
  | 0, _ => []
  | fuel+1, n => if n < 10 then [n] else natDigits fuel (n / 10) ++ [n % 10]

/-- Decimal digit characters of `n`, most significant first. -/
def natToChars (n : ℕ) : List Char := (natDigits (n + 1) n).map digitChar

/-- Decimal string of a natural number. -/
def natToStr (n : ℕ) : String := String.mk (natToChars n)

/-- Decimal string of an integer. -/
def intToStr (i : ℤ) : String :=
  if i < 0 then "-" ++ natToStr i.natAbs else natToStr i.natAbs

/-! ### Tokens

`parse_expr` is called with `standard_transformations +
(implicit_multiplication_application,)` (line 38 of `src/main.py`).  The
tokenizer below models CPython tokenization of the input fragment the
claims quantify over: decimal integer literals, the name `x`, operators
`+ - * ** ^`, parentheses and whitespace.  Note that `convert_xor` is NOT
among the transformations, so `^` stays Python bitwise-xor; on SymPy
objects this builds `Xor`, which rejects non-Boolean arguments with a
`TypeError` inside `parse_expr` — modelled as a parse-stage error. -/

/-- Single-character tokens (digits not yet merged into numerals). -/
inductive Tok1
  | digit (d : ℕ)
  | var
  | plus
  | minus
  | star
  | caret
  | lparen
  | rparen
  | space
deriving DecidableEq, Repr

/-- Tokens after merging adjacent digits into numerals. -/
inductive Tok
  | num (n : ℕ)
  | var
  | plus
  | minus
  | star
  | caret
  | lparen
  | rparen
  | space
deriving DecidableEq, Repr

/-- Conversion for the non-digit tokens. -/
def tok1to : Tok1 → Tok
  | .digit d => .num d
  | .var => .var
  | .plus => .plus
  | .minus => .minus
  | .star => .star
  | .caret => .caret
  | .lparen => .lparen
  | .rparen => .rparen
  | .space => .space

/-- Classify one character.  Characters outside the modelled fragment
(other letters, dots, etc.) are parse errors in the model; SymPy would
accept some of them (e.g. other symbol names), but no claim reaches such
inputs. -/
def charTok (c : Char) : Except String Tok1 :=
  if c.isDigit then .ok (.digit (c.toNat - 48))
  else if c = 'x' then .ok .var
  else if c = '+' then .ok .plus
  else if c = '-' then .ok .minus
  else if c = '*' then .ok .star
  else if c = '^' then .ok .caret
  else if c = '(' then .ok .lparen
  else if c = ')' then .ok .rparen
  else if wsChar c then .ok .space
  else .error "invalid syntax"

/-- Tokenize character-by-character. -/
def pass1 : List Char → Except String (List Tok1)
  | [] => .ok []
  | c :: cs =>
    match charTok c, pass1 cs with
    | .ok t, .ok ts => .ok (t :: ts)
    | .error e, _ => .error e
    | .ok _, .error e => .error e

/-- Python would tokenize `x2`/`xy` as a single name (a different SymPy
symbol); such adjacency is outside the modelled one-unknown fragment. -/
def adjOK (t : Tok1) (next : Option Tok1) : Bool :=
  match t with
  | .var =>
    match next with
    | some (.digit _) => false
    | some .var => false
    | _ => true
  | _ => true

/-- Check that no name-forming adjacency occurs. -/
def checkAdj : List Tok1 → Bool
  | [] => true
  | t :: r => adjOK t r.head? && checkAdj r

/-- Merge maximal runs of adjacent digits into decimal numerals
(CPython tokenizes a digit run as one NUMBER token). -/
def mergeDigits : Option ℕ → List Tok1 → List Tok
  | none, [] => []
  | some n, [] => [.num n]
  | none, .digit d :: r => mergeDigits (some d) r
  | some n, .digit d :: r => mergeDigits (some (n * 10 + d)) r
  | some n, t :: r => .num n :: tok1to t :: mergeDigits none r
  | none, t :: r => tok1to t :: mergeDigits none r

/-- Whitespace separates tokens and is then discarded. -/
def dropSpaces (ts : List Tok) : List Tok := ts.filter (fun t => t != Tok.space)

/-! ### Polynomials

Dense coefficient lists over ℚ, index = power of `x`.  SymPy does not
eagerly expand products, but both `sp.degree` and `sp.solve` work on the
expanded polynomial, so the expanded form is the faithful carrier for the
pipeline stages the claims are about. -/

/-- Polynomial addition. -/
def pAdd : List ℚ → List ℚ → List ℚ
  | [], q => q
  | p, [] => p
  | a :: p, b :: q => (a + b) :: pAdd p q

/-- Polynomial negation. -/
def pNeg (p : List ℚ) : List ℚ := p.map Neg.neg

/-- Polynomial subtraction (the normalization `expr = lhs - rhs`,
line 159 of `src/main.py`). -/
def pSub (p q : List ℚ) : List ℚ := pAdd p (pNeg q)

/-- Scalar multiple. -/
def pSmul (c : ℚ) (p : List ℚ) : List ℚ := p.map (c * ·)

/-- Polynomial multiplication. -/
def pMul : List ℚ → List ℚ → List ℚ
  | [], _ => []
  | a :: p, q => pAdd (pSmul a q) (0 :: pMul p q)

/-- Polynomial power. -/
def pPow (p : List ℚ) : ℕ → List ℚ
  | 0 => [1]
  | n+1 => pMul p (pPow p n)

/-- Drop trailing zero coefficients. -/
def trim (p : List ℚ) : List ℚ := (p.reverse.dropWhile (fun q => q == 0)).reverse

/-- Degree of the normalized expression in the unknown, modelling
`sp.degree(expr, x)` (line 165): `none` plays the role of SymPy's `-oo`
for the identically-zero expression; comparisons `-oo > 1` and `-oo != 2`
behave accordingly below. -/
def degOf (p : List ℚ) : Option ℕ :=
  match trim p with
  | [] => none
  | t => some (t.length - 1)

/-- Does the (possibly `-oo`) degree exceed 1? (`degree > 1`, line 167). -/
def degGT1 : Option ℕ → Bool
  | some k => decide (1 < k)
  | none => false

/-! ### Solution values and numeric formatting -/

/-- A symbolic solution value, as produced by `sp.solve` on the equations
in scope: a rational, a quadratic surd `p + q·√d` (for `d < 0` this stands
for the complex value SymPy returns on a negative discriminant), or — for
the domain of `format_solution`, which the spec quantifies over all
symbolic values — an opaque non-numeric symbolic value `sym s` whose
numeric reduction fails, carrying its `str` representation. -/
inductive SymVal
  | rat (q : ℚ)
  | quad (p q d : ℚ)
  | sym (s : String)
deriving DecidableEq, Repr

/-- Decidable equality of `Except` results. -/
instance {ε α : Type _} [DecidableEq ε] [DecidableEq α] : DecidableEq (Except ε α)
  | .ok x, .ok y => decidable_of_iff (x = y) (by simp)
  | .ok _, .error _ => .isFalse (by simp)
  | .error _, .ok _ => .isFalse (by simp)
  | .error e, .error f => decidable_of_iff (e = f) (by simp)

/-- Powers of ten in ℚ (structural, so the kernel can evaluate it). -/
def qpow10 : ℕ → ℚ
  | 0 => 1
  | n+1 => 10 * qpow10 n

/-- Absolute value on ℚ (structural). -/
def qabs (q : ℚ) : ℚ := if q < 0 then -q else q

/-- Rational square root, if one exists: `some s` implies `s * s = x` and
`0 ≤ s` (soundness is all the proofs use). -/
def ratSqrtQ (x : ℚ) : Option ℚ :=
  let sn := Nat.sqrt x.num.toNat
  let sd := Nat.sqrt x.den
  if (sn : ℤ) * sn = x.num ∧ sd * sd = x.den then some ((sn : ℚ) / (sd : ℚ)) else none

/-- Crude rational approximation of `√x` (12 decimal places), used only to
model the decimal rendering of irrational roots; no claim evaluates it. -/
def approxSqrt (x : ℚ) : ℚ :=
  ((Nat.sqrt (x * qpow10 24).floor.toNat : ℚ)) / qpow10 12

/-- Floor of `log₁₀ q` for `q > 0`, computed from digit counts. -/
def floorLog10 (q : ℚ) : ℤ :=
  let e0 : ℤ := (natToChars q.num.natAbs).length - (natToChars q.den).length
  let p : ℚ := if 0 ≤ e0 then qpow10 e0.toNat else 1 / qpow10 (-e0).toNat
  if q < p then e0 - 1 else e0

/-- Modelled from the spec: `str(sp.N(value, n=4))` for a rational value —
decimal rendering at 4 significant digits.  `sp.N(0, 4)` prints as `"0"`
(spec scenario: input `"2x = 0"` displays `"x = 0"`); otherwise mpmath
renders 4 significant digits, e.g. `"2.000"`, `"-0.6667"`.  Rounding of
exact decimal ties and the fixed/scientific placement thresholds
approximate mpmath; no claim depends on those corners. -/
def fmt4 (q : ℚ) : String :=
  if q = 0 then "0"
  else
    let sgn := if q < 0 then "-" else ""
    let aq := qabs q
    let e1 := floorLog10 aq
    let scale : ℚ := if 0 ≤ 3 - e1 then qpow10 (3 - e1).toNat else 1 / qpow10 (e1 - 3).toNat
    let n0 := (aq * scale + 1/2).floor.toNat
    let n := if 10000 ≤ n0 then 1000 else n0
    let e := if 10000 ≤ n0 then e1 + 1 else e1
    let ds := natToChars n
    let body :=
      if 0 ≤ e ∧ e ≤ 3 then
        String.mk (ds.take (e.toNat + 1)) ++ "." ++ String.mk (ds.drop (e.toNat + 1))
      else if -5 ≤ e ∧ e < 0 then
        "0." ++ String.mk (List.replicate ((-e).toNat - 1) '0') ++ String.mk ds
      else
        String.mk (ds.take 1) ++ "." ++ String.mk (ds.drop 1) ++
          (if 0 ≤ e then "e+" else "e-") ++ natToStr e.natAbs
    sgn ++ body

/-- The `str` representation of a rational SymPy number. -/
def ratStr (q : ℚ) : String :=
  if q.den = 1 then intToStr q.num else intToStr q.num ++ "/" ++ natToStr q.den

/-- The raw `str` representation of a symbolic value (the fallback text of
`format_solution`). -/
def SymVal.str : SymVal → String
  | .rat q => ratStr q
  | .quad p q d => ratStr p ++ " + " ++ ratStr q ++ "*sqrt(" ++ ratStr d ++ ")"
  | .sym s => s

/-- Modelled from the spec: `sp.N(solution, n=4)` — numeric reduction of a
symbolic value to a 4-significant-digit decimal, which can fail (raise)
on a non-numeric symbolic value; success carries the printed string. -/
def spN : SymVal → Except String String
  | .rat q => .ok (fmt4 q)
  | .quad p q d =>
    if 0 ≤ d then .ok (fmt4 (p + q * approxSqrt d))
    else .ok (fmt4 p ++ " + " ++ fmt4 (q * approxSqrt (-d)) ++ "*I")
  | .sym _ => .error "cannot reduce to a number"

/-- `EquationSolver.format_solution` (lines 124–135): try the numeric
reduction; if it raises, fall back to the raw symbolic string.  Total by
construction — the model of "never raises". -/
def format_solution (v : SymVal) : String :=
  match spN v with
  | .ok s => s
  | .error _ => SymVal.str v

/-! ### The solver -/

/-- Roots of a polynomial given by its trimmed coefficient list (leading
coefficient nonzero).  See `sp_solve`. -/
def solveTrimmed : List ℚ → List SymVal
  | [] => []
  | [_] => []
  | [b, a] => [SymVal.rat (-b / a)]
  | [c, b, a] =>
    let disc := b * b - 4 * a * c
    if disc = 0 then [SymVal.rat (-b / (2 * a))]
    else
      match ratSqrtQ disc with
      | some s =>
        if 0 < a then
          [SymVal.rat ((-b - s) / (2 * a)), SymVal.rat ((-b + s) / (2 * a))]
        else
          [SymVal.rat ((-b + s) / (2 * a)), SymVal.rat ((-b - s) / (2 * a))]
      | none =>
        let p0 := -b / (2 * a)
        let q0 := 1 / (2 * a)
        if 0 < a then
          [SymVal.quad p0 (-q0) disc, SymVal.quad p0 q0 disc]
        else
          [SymVal.quad p0 q0 disc, SymVal.quad p0 (-q0) disc]
  | _ => []

/-- Modelled from the spec: `sp.solve(expr, x)` (line 173) on the expanded
polynomial `expr`:
* the zero polynomial (`solve(0, x)`) and nonzero constants give `[]`;
* degree 1 gives the single rational root;
* degree 2 gives the quadratic-formula roots: one rational root on zero
  discriminant, two rational roots when the discriminant is a rational
  square, surds `-b/(2a) ± √disc/(2a)` otherwise (for `disc < 0` these
  stand for the complex conjugate pair), listed in SymPy order (ascending
  for real roots);
* degree ≥ 3 never reaches `sp.solve` in this program (the degree check
  raises first), modelled as `[]`. -/
def sp_solve (p : List ℚ) : List SymVal := solveTrimmed (trim p)

/-! ### The parser -/

/-- Exponent of `**`: SymPy keeps `x**k` polynomial only for constant
nonnegative integer exponents; anything else leaves the polynomial
fragment (the later degree computation would raise) — modelled as a
parse-stage error. -/
def constNat (p : List ℚ) : Option ℕ :=
  match p with
  | [] => some 0
  | [q] => if q.den = 1 ∧ 0 ≤ q.num then some q.num.toNat else none
  | _ => none

mutual

/-- expression := term { (`+` | `-`) term } -/
def parseE : ℕ → List Tok → Except String (List ℚ × List Tok)
  | 0, _ => .error "invalid syntax"
  | fuel+1, ts =>
    match parseT fuel ts with
    | .ok (p, ts1) => parseEL fuel p ts1
    | .error e => .error e

/-- Loop of `parseE`. -/
def parseEL : ℕ → List ℚ → List Tok → Except String (List ℚ × List Tok)
  | 0, _, _ => .error "invalid syntax"
  | fuel+1, acc, ts =>
    match ts with
    | .plus :: ts1 =>
      match parseT fuel ts1 with
      | .ok (p, ts2) => parseEL fuel (pAdd acc p) ts2
      | .error e => .error e
    | .minus :: ts1 =>
      match parseT fuel ts1 with
      | .ok (p, ts2) => parseEL fuel (pSub acc p) ts2
      | .error e => .error e
    | _ => .ok (acc, ts)

/-- term := factor { `*` factor | factor }  (the second alternative is
implicit multiplication: a numeral, `x` or `(` directly following a
factor, as inserted by `implicit_multiplication_application`). -/
def parseT : ℕ → List Tok → Except String (List ℚ × List Tok)
  | 0, _ => .error "invalid syntax"
  | fuel+1, ts =>
    match parseF fuel ts with
    | .ok (p, ts1) => parseTL fuel p ts1
    | .error e => .error e

/-- Loop of `parseT`. -/
def parseTL : ℕ → List ℚ → List Tok → Except String (List ℚ × List Tok)
  | 0, _, _ => .error "invalid syntax"
  | fuel+1, acc, ts =>
    match ts with
    | .star :: .star :: _ => .ok (acc, ts)
    | .star :: ts1 =>
      match parseF fuel ts1 with
      | .ok (p, ts2) => parseTL fuel (pMul acc p) ts2
      | .error e => .error e
    | .num _ :: _ =>
      match parseF fuel ts with
      | .ok (p, ts2) => parseTL fuel (pMul acc p) ts2
      | .error e => .error e
    | .var :: _ =>
      match parseF fuel ts with
      | .ok (p, ts2) => parseTL fuel (pMul acc p) ts2
      | .error e => .error e
    | .lparen :: _ =>
      match parseF fuel ts with
      | .ok (p, ts2) => parseTL fuel (pMul acc p) ts2
      | .error e => .error e
    | _ => .ok (acc, ts)

/-- factor := `-` factor | atom { `**` factor } -/
def parseF : ℕ → List Tok → Except String (List ℚ × List Tok)
  | 0, _ => .error "invalid syntax"
  | fuel+1, ts =>
    match ts with
    | .minus :: ts1 =>
      match parseF fuel ts1 with
      | .ok (p, ts2) => .ok (pNeg p, ts2)
      | .error e => .error e
    | _ =>
      match parseA fuel ts with
      | .ok (p, ts1) => parseFL fuel p ts1
      | .error e => .error e

/-- Power loop of `parseF`. -/
def parseFL : ℕ → List ℚ → List Tok → Except String (List ℚ × List Tok)
  | 0, _, _ => .error "invalid syntax"
  | fuel+1, acc, ts =>
    match ts with
    | .star :: .star :: ts1 =>
      match parseF fuel ts1 with
      | .ok (pe, ts2) =>
        match constNat pe with
        | some k => parseFL fuel (pPow acc k) ts2
        | none => .error "unsupported exponent"
      | .error e => .error e
    | _ => .ok (acc, ts)

/-- atom := numeral | `x` | `(` expression `)` -/
def parseA : ℕ → List Tok → Except String (List ℚ × List Tok)
  | 0, _ => .error "invalid syntax"
  | fuel+1, ts =>
    match ts with
    | .num n :: r => .ok ([(n : ℚ)], r)
    | .var :: r => .ok ([0, 1], r)
    | .lparen :: r =>
      match parseE fuel r with
      | .ok (p, .rparen :: r2) => .ok (p, r2)
      | .ok _ => .error "invalid syntax"
      | .error e => .error e
    | _ => .error "invalid syntax"

end

/-- Message of the modelled `TypeError` raised inside `parse_expr` when
`^` occurs: `convert_xor` is not among the transformations (line 38), so
`^` is Python xor and builds SymPy `Xor`, which rejects non-Boolean
arguments. -/
def xorMsg : String := "Xor of non-Boolean arguments"

/-- The token-level part of `parse_expr`: reject unmodelled name
adjacency, merge numerals, drop whitespace, reject `^`, then parse. -/
def parseToks (t1 : List Tok1) : Except String (List ℚ) :=
  if checkAdj t1 then
    let ts := dropSpaces (mergeDigits none t1)
    if ts.contains .caret then .error xorMsg
    else
      match parseE (5 * ts.length + 10) ts with
      | .ok (p, []) => .ok p
      | .ok _ => .error "invalid syntax"
      | .error e => .error e
  else .error "invalid syntax"

/-- `parse_expr(side, transformations=transformations)` (lines 157–158)
on the modelled input fragment: tokenize, then the token-level stage. -/
def parseChars (cs : List Char) : Except String (List ℚ) :=
  match pass1 cs with
  | .error e => .error e
  | .ok t1 => parseToks t1

/-! ### The evaluator pipeline -/

/-- The user-selected equation type (`"linear"`/`"quadratic"`,
line 144 of `src/main.py`). -/
inductive EqType
  | linear
  | quadratic
deriving DecidableEq, Repr

/-- The distinct failure sites of `EquationSolver.solve`; in the source
all are raised (`ValueError`, or exceptions out of SymPy) and caught by
the single `except Exception` handler, which shows `"Ошибка: " + str(e)`. -/
inductive EvalErr
  | emptyInput
  | missingEquals
  | parseError (s : String)
  | notLinear
  | notQuadratic
deriving DecidableEq, Repr

/-- The message each failure carries (`str(e)` of the raised exception). -/
def EvalErr.msg : EvalErr → String
  | .emptyInput => "Введите уравнение"
  | .missingEquals => "Уравнение должно содержать знак \x27=\x27"
  | .parseError s => s
  | .notLinear => "Уравнение не линейное (степень > 1)"
  | .notQuadratic => "Уравнение не квадратное (степень должна быть 2)"

/-- Python `str.strip()` on a character list. -/
def strip (l : List Char) : List Char :=
  ((l.dropWhile wsChar).reverse.dropWhile wsChar).reverse

/-- Formatting of the solution list (lines 176–189): the empty list is
the "no solutions" message; under Quadratic, exactly two solutions are
shown as `x1`/`x2` and any other count as one "multiple root" line for
`solutions[0]`; under Linear, `solutions[0]` is shown as the single
solution. -/
def formatOut (ty : EqType) (sols : List SymVal) : String :=
  match ty, sols with
  | _, [] => "Уравнение не имеет решений"
  | .quadratic, [v1, v2] =>
    "Корни уравнения:\nx1 = " ++ format_solution v1 ++ "\nx2 = " ++ format_solution v2
  | .quadratic, v :: _ => "Корень уравнения (кратный):\nx = " ++ format_solution v
  | .linear, v :: _ => "Решение уравнения:\nx = " ++ format_solution v

/-- Stages 3–5 of `solve` (lines 159–189): normalize was already done by
the caller; check the degree against the declared type (lines 165–170),
solve (line 173) and format (lines 176–189).  The solution list is
carried alongside the display text so the claims can speak about the
returned roots as well as the rendering. -/
def stage2 (p : List ℚ) (ty : EqType) : Except EvalErr (List SymVal × String) :=
  if ty = .linear ∧ degGT1 (degOf p) then .error .notLinear
  else if ty = .quadratic ∧ degOf p ≠ some 2 then .error .notQuadratic
  else .ok (sp_solve p, formatOut ty (sp_solve p))

/-- Parse both sides, normalize (`expr = lhs - rhs`) and run the back end
of the pipeline. -/
def parseStage (l r : List Char) (ty : EqType) : Except EvalErr (List SymVal × String) :=
  match parseChars l, parseChars r with
  | .ok pl, .ok pr => stage2 (pSub pl pr) ty
  | .error e, _ => .error (.parseError e)
  | .ok _, .error e => .error (.parseError e)

/-- The try-block of `EquationSolver.solve` (lines 145–189) on a
character list: strip, reject blank input, reject missing `=`, split on
the first `=` (`eq_text.split("=", 1)`), then parse and solve. -/
def evalChars (cs : List Char) (ty : EqType) : Except EvalErr (List SymVal × String) :=
  let t := strip cs
  if t = [] then .error .emptyInput
  else if ¬ ('=' ∈ t) then .error .missingEquals
  else parseStage (t.takeWhile (fun c => c ≠ '=')) ((t.dropWhile (fun c => c ≠ '=')).tail) ty

/-- The evaluator on the input string. -/
def evaluate (s : String) (ty : EqType) : Except EvalErr (List SymVal × String) :=
  evalChars s.data ty

/-- The whole of `EquationSolver.solve` including the catch-all handler
(lines 193–195): the text that ends up in `result_label`. -/
def solveText (txt : String) (ty : EqType) : String :=
  match evaluate txt ty with
  | .ok (_, msg) => msg
  | .error e => "Ошибка: " ++ e.msg

/-- The characters of the canonical linear input `"a*x + b = c"` built
from decimal numerals. -/
def mkLinChars (a b c : ℕ) : List Char :=
  natToChars a ++
    '*' :: 'x' :: ' ' :: '+' :: ' ' :: (natToChars b ++ ' ' :: '=' :: ' ' :: natToChars c)

/-- The canonical linear input string `"a*x + b = c"`. -/
def mkLin (a b c : ℕ) : String := String.mk (mkLinChars a b c)

/-! ### The GUI state (presentation layer)

Only the pieces the claims mention are modelled: the two grouped
checkboxes (`linear_check`, `quadratic_check`, lines 62 and 70), the text
input and the result label.  Kivy checkbox groups deactivate the other
boxes of the group when one becomes active, and — `allow_no_selection`
being `True` by default — clicking the active box deactivates it leaving
none active. -/

/-- The widget state of `EquationSolver`. -/
structure UIState where
  linear_active : Bool
  quadratic_active : Bool
  equation_input : String
  result_label : String
deriving DecidableEq, Repr

/-- The state after `__init__` (lines 62, 70, 80, 99): the Linear box is
active, the Quadratic one is not. -/
def initState : UIState :=
  { linear_active := true
    quadratic_active := false
    equation_input := ""
    result_label := "Решение появится здесь" }

/-- `EquationSolver.clear_fields` (lines 108–111). -/
def clear_fields (s : UIState) : UIState :=
  { s with equation_input := "", result_label := "Решение появится здесь" }

/-- `EquationSolver.on_checkbox_active` (lines 113–122): on activation of
one box, deactivate the other; on deactivation, do nothing. -/
def on_checkbox_active (s : UIState) (isLinearBox : Bool) (value : Bool) : UIState :=
  if value then
    if isLinearBox then { s with quadratic_active := false }
    else { s with linear_active := false }
  else s

/-- A user click on the Linear checkbox: Kivy toggles it (group semantics;
deactivating the active box of a group is allowed by default), then the
bound handler runs. -/
def clickLinear (s : UIState) : UIState :=
  let v := !s.linear_active
  let s1 : UIState :=
    { s with
      linear_active := v
      quadratic_active := if v then false else s.quadratic_active }
  on_checkbox_active s1 true v

/-- A user click on the Quadratic checkbox. -/
def clickQuadratic (s : UIState) : UIState :=
  let v := !s.quadratic_active
  let s1 : UIState :=
    { s with
      quadratic_active := v
      linear_active := if v then false else s.linear_active }
  on_checkbox_active s1 false v

/-- Pressing the solve button: the equation type is read from the Linear
checkbox (line 144: quadratic whenever `linear_check` is inactive) and the
result label is set. -/
def solveStep (s : UIState) : UIState :=
  { s with
    result_label :=
      solveText s.equation_input (if s.linear_active then .linear else .quadratic) }

/-- Typing replaces the text of the input field. -/
def setInput (s : UIState) (t : String) : UIState := { s with equation_input := t }

/-- The states the GUI can reach from start-up. -/
inductive Reachable : UIState → Prop
  | init : Reachable initState
  | lin {s} : Reachable s → Reachable (clickLinear s)
  | quad {s} : Reachable s → Reachable (clickQuadratic s)
  | clear {s} : Reachable s → Reachable (clear_fields s)
  | solved {s} : Reachable s → Reachable (solveStep s)
  | typed {s} (t : String) : Reachable s → Reachable (setInput s t)

/-- Exactly one of the two equation-type boxes is active. -/
def exclOne (s : UIState) : Bool := xor s.linear_active s.quadratic_active

/-- At most one of the two equation-type boxes is active. -/
def atMostOne (s : UIState) : Bool := !(s.linear_active && s.quadratic_active)

/-- Real value of a symbolic solution (`sym` values are non-numeric;
their interpretation is irrelevant to every claim). -/
noncomputable def SymVal.val : SymVal → ℝ
  | .rat q => (q : ℝ)
  | .quad p q d => (p : ℝ) + (q : ℝ) * Real.sqrt (d : ℝ)
  | .sym _ => 0

/-! ### General lemmas about the pipeline stages -/

/-- Both equation types format the empty solution list as the
"no solutions" message. -/
theorem formatOut_nil (ty : EqType) : formatOut ty [] = "Уравнение не имеет решений" := by
  cases ty <;> rfl

/-- When both degree guards pass, `solve` reaches the solve-and-format
stage. -/
theorem stage2_pass {p : List ℚ} {ty : EqType}
    (h1 : ¬(ty = .linear ∧ degGT1 (degOf p)))
    (h2 : ¬(ty = .quadratic ∧ degOf p ≠ some 2)) :
    stage2 p ty = .ok (sp_solve p, formatOut ty (sp_solve p)) := by
  unfold stage2
  rw [if_neg h1, if_neg h2]

/-- Under Quadratic, degree 2 passes the guards. -/
theorem stage2_quad_ok {p : List ℚ} (h2 : degOf p = some 2) :
    stage2 p .quadratic = .ok (sp_solve p, formatOut .quadratic (sp_solve p)) :=
  stage2_pass (by simp) (by simp [h2])

/-- Under Linear, any degree not exceeding 1 (including `-oo`) passes the
guards. -/
theorem stage2_lin_ok {p : List ℚ} (h : degGT1 (degOf p) = false) :
    stage2 p .linear = .ok (sp_solve p, formatOut .linear (sp_solve p)) :=
  stage2_pass (by simp [h]) (by simp)

/-- Splitting a list at the first occurrence of `'='`. -/
theorem split_first {l : List Char} (h : '=' ∈ l) :
    l = l.takeWhile (fun c => c ≠ '=') ++ '=' :: (l.dropWhile (fun c => c ≠ '=')).tail ∧
      '=' ∉ l.takeWhile (fun c => c ≠ '=') := by
  induction l with
  | nil => cases h
  | cons c t ih =>
    by_cases hc : c = '='
    · subst hc
      constructor <;> simp [List.takeWhile_cons, List.dropWhile_cons]
    · have hm : '=' ∈ t := by
        rcases List.mem_cons.1 h with h' | h'
        · exact absurd h'.symm hc
        · exact h'
      obtain ⟨ih1, ih2⟩ := ih hm
      have hp : decide (c ≠ '=') = true := decide_eq_true hc
      constructor
      · rw [List.takeWhile_cons, List.dropWhile_cons, if_pos hp, if_pos hp,
          List.cons_append, ← ih1]
      · rw [List.takeWhile_cons, if_pos hp]
        intro hmem
        rcases List.mem_cons.1 hmem with h' | h'
        · exact hc h'.symm
        · exact ih2 h'

/-- A click on the Linear box never leaves both boxes active. -/
theorem atMostOne_clickLinear (s : UIState) : atMostOne (clickLinear s) = true := by
  obtain ⟨la, qa, i, r⟩ := s
  cases la <;> cases qa <;> rfl

/-- A click on the Quadratic box never leaves both boxes active. -/
theorem atMostOne_clickQuadratic (s : UIState) : atMostOne (clickQuadratic s) = true := by
  obtain ⟨la, qa, i, r⟩ := s
  cases la <;> cases qa <;> rfl

/-! ### Decimal numerals round-trip through the tokenizer -/

/-- Every digit list produced by `natDigits` is nonempty (with fuel). -/
theorem natDigits_ne_nil {fuel n : ℕ} : natDigits (fuel + 1) n ≠ [] := by
  rw [natDigits]
  split <;> simp

/-- All entries of `natDigits` are decimal digits. -/
theorem natDigits_lt (fuel n : ℕ) : ∀ d ∈ natDigits fuel n, d < 10 := by
  induction fuel generalizing n with
  | zero => simp [natDigits]
  | succ fuel ih =>
    intro d hd
    rw [natDigits] at hd
    by_cases hn : n < 10
    · rw [if_pos hn] at hd
      simp at hd
      omega
    · rw [if_neg hn] at hd
      rcases List.mem_append.1 hd with h' | h'
      · exact ih _ d h'
      · simp at h'
        subst h'
        exact Nat.mod_lt _ (by norm_num)

/-- Folding the digit-accumulation step over `natDigits` recovers the
number. -/
theorem natDigits_val (fuel n acc : ℕ) (h : n < 10 ^ fuel) :
    (natDigits fuel n).foldl (fun ac d => ac * 10 + d) acc =
      acc * 10 ^ (natDigits fuel n).length + n := by
  induction fuel generalizing n acc with
  | zero =>
    have : n = 0 := by omega
    simp [natDigits, this]
  | succ fuel ih =>
    rw [natDigits]
    by_cases hn : n < 10
    · rw [if_pos hn]
      simp
    · rw [if_neg hn]
      have hdiv : n / 10 < 10 ^ fuel := by
        rw [Nat.div_lt_iff_lt_mul (by norm_num)]
        calc n < 10 ^ (fuel + 1) := h
          _ = 10 ^ fuel * 10 := by ring
      rw [List.foldl_append, List.length_append]
      have hstep : (natDigits fuel (n / 10)).foldl (fun ac d => ac * 10 + d) acc =
          acc * 10 ^ (natDigits fuel (n / 10)).length + n / 10 := ih (n / 10) acc hdiv
      show ((natDigits fuel (n / 10)).foldl (fun ac d => ac * 10 + d) acc) * 10 + n % 10 = _
      rw [hstep]
      calc (acc * 10 ^ (natDigits fuel (n / 10)).length + n / 10) * 10 + n % 10
          = acc * (10 ^ (natDigits fuel (n / 10)).length * 10) + (n / 10 * 10 + n % 10) := by
            ring
        _ = acc * 10 ^ ((natDigits fuel (n / 10)).length + [n % 10].length) + n := by
            rw [Nat.div_add_mod']
            simp [pow_succ]

/-- Every number is below `10 ^ (n + 1)` (enough fuel for `natDigits`). -/
theorem lt_ten_pow (n : ℕ) : n < 10 ^ (n + 1) :=
  lt_of_lt_of_le (Nat.lt_pow_self (by norm_num) n)
    (Nat.pow_le_pow_right (by norm_num) (Nat.le_succ n))

/-- `charTok` classifies digit characters as digits. -/
theorem charTok_digitChar {d : ℕ} (h : d < 10) : charTok (digitChar d) = .ok (.digit d) := by
  interval_cases d <;> decide

/-- Digit characters are not whitespace. -/
theorem digitChar_not_ws {d : ℕ} (h : d < 10) : wsChar (digitChar d) = false := by
  interval_cases d <;> decide

/-- Digit characters are not the equals sign. -/
theorem digitChar_ne_eq {d : ℕ} (h : d < 10) : digitChar d ≠ '=' := by
  interval_cases d <;> decide

/-- Tokenizing a cons. -/
theorem pass1_cons_ok {ch : Char} {t : Tok1} {cs : List Char} {ts : List Tok1}
    (hc : charTok ch = .ok t) (hcs : pass1 cs = .ok ts) :
    pass1 (ch :: cs) = .ok (t :: ts) := by
  simp [pass1, hc, hcs]

/-- Tokenizing an append of two well-tokenized parts. -/
theorem pass1_append_ok {l1 l2 : List Char} {t1 t2 : List Tok1}
    (h1 : pass1 l1 = .ok t1) (h2 : pass1 l2 = .ok t2) :
    pass1 (l1 ++ l2) = .ok (t1 ++ t2) := by
  induction l1 generalizing t1 with
  | nil =>
    simp [pass1] at h1
    subst h1
    simpa using h2
  | cons ch cs ih =>
    rw [pass1] at h1
    cases hct : charTok ch with
    | error e => rw [hct] at h1; simp at h1
    | ok t =>
      cases hcs : pass1 cs with
      | error e => rw [hct, hcs] at h1; simp at h1
      | ok ts =>
        rw [hct, hcs] at h1
        simp at h1
        subst h1
        exact pass1_cons_ok hct (ih hcs)

/-- Tokenizing a digit-character list. -/
theorem pass1_digit_list {ds : List ℕ} (h : ∀ d ∈ ds, d < 10) :
    pass1 (ds.map digitChar) = .ok (ds.map Tok1.digit) := by
  induction ds with
  | nil => rfl
  | cons d ds ih =>
    exact pass1_cons_ok (charTok_digitChar (h d (List.mem_cons_self _ _)))
      (ih fun d' hd' => h d' (List.mem_cons_of_mem _ hd'))

/-- Digit tokens never form an invalid name adjacency. -/
theorem checkAdj_digits (ds : List ℕ) (r : List Tok1) :
    checkAdj (ds.map Tok1.digit ++ r) = checkAdj r := by
  induction ds with
  | nil => rfl
  | cons d ds ih => simp [checkAdj, adjOK, ih]

/-- Accumulating a digit run in `mergeDigits`. -/
theorem mergeDigits_acc (ds : List ℕ) (m : ℕ) (r : List Tok1) :
    mergeDigits (some m) (ds.map Tok1.digit ++ r) =
      mergeDigits (some (ds.foldl (fun ac d => ac * 10 + d) m)) r := by
  induction ds generalizing m with
  | nil => rfl
  | cons d ds ih => exact ih (m * 10 + d)

/-- A maximal digit run merges to the numeral it denotes. -/
theorem mergeDigits_run (d : ℕ) (ds : List ℕ) (r : List Tok1) :
    mergeDigits none ((d :: ds).map Tok1.digit ++ r) =
      mergeDigits (some ((d :: ds).foldl (fun ac k => ac * 10 + k) 0)) r := by
  show mergeDigits (some d) (ds.map Tok1.digit ++ r) = _
  rw [show ((d :: ds).foldl (fun ac k => ac * 10 + k) 0) =
    ds.foldl (fun ac k => ac * 10 + k) d from by simp]
  exact mergeDigits_acc ds d r

/-- A nonempty list, reversed, starts with one of its elements. -/
theorem rev_head {l : List Char} (h : l ≠ []) : ∃ d t, l.reverse = d :: t ∧ d ∈ l := by
  cases hr : l.reverse with
  | nil => exact absurd (List.reverse_eq_nil_iff.1 hr) h
  | cons d t =>
    refine ⟨d, t, rfl, List.mem_reverse.1 ?_⟩
    rw [hr]
    exact List.mem_cons_self _ _

/-- `strip` is the identity on text with non-whitespace first and last
characters. -/
theorem strip_of_ends {l : List Char}
    (h1 : ∃ d t, l = d :: t ∧ wsChar d = false)
    (h2 : ∃ d t, l.reverse = d :: t ∧ wsChar d = false) : strip l = l := by
  obtain ⟨d1, t1, hd1, hw1⟩ := h1
  obtain ⟨d2, t2, hd2, hw2⟩ := h2
  unfold strip
  rw [hd1, List.dropWhile_cons, if_neg (by simp [hw1]), ← hd1, hd2, List.dropWhile_cons,
    if_neg (by simp [hw2]), ← hd2, List.reverse_reverse]

/-- `takeWhile` passes over a prefix all of whose characters satisfy the
predicate. -/
theorem takeWhile_all_append {p : Char → Bool} (l1 l2 : List Char)
    (h : ∀ ch ∈ l1, p ch = true) :
    (l1 ++ l2).takeWhile p = l1 ++ l2.takeWhile p := by
  induction l1 with
  | nil => simp
  | cons ch t ih =>
    rw [List.cons_append, List.takeWhile_cons, if_pos (h _ (List.mem_cons_self _ _)),
      ih fun x hx => h x (List.mem_cons_of_mem _ hx), List.cons_append]

/-- `dropWhile` drops a prefix all of whose characters satisfy the
predicate. -/
theorem dropWhile_all_append {p : Char → Bool} (l1 l2 : List Char)
    (h : ∀ ch ∈ l1, p ch = true) :
    (l1 ++ l2).dropWhile p = l2.dropWhile p := by
  induction l1 with
  | nil => simp
  | cons ch t ih =>
    rw [List.cons_append, List.dropWhile_cons, if_pos (h _ (List.mem_cons_self _ _)),
      ih fun x hx => h x (List.mem_cons_of_mem _ hx)]

/-- All characters of a printed numeral are digits: neither whitespace
nor `'='`. -/
theorem natToChars_all (n : ℕ) : ∀ ch ∈ natToChars n, wsChar ch = false ∧ ch ≠ '=' := by
  intro ch hch
  rw [natToChars] at hch
  obtain ⟨d, hd, rfl⟩ := List.mem_map.1 hch
  have hd10 := natDigits_lt _ _ d hd
  exact ⟨digitChar_not_ws hd10, digitChar_ne_eq hd10⟩

/-- A printed numeral is nonempty. -/
theorem natToChars_ne_nil (n : ℕ) : natToChars n ≠ [] := by
  rw [natToChars]
  intro h
  exact natDigits_ne_nil (List.map_eq_nil_iff.1 h)

/-- Soundness of the rational square root test. -/
theorem ratSqrtQ_sound {x s : ℚ} (h : ratSqrtQ x = some s) : s * s = x ∧ 0 ≤ s := by
  simp only [ratSqrtQ] at h
  split at h
  case isTrue hc =>
    obtain ⟨hc1, hc2⟩ := hc
    injection h with h
    subst h
    constructor
    · have h1 : ((Nat.sqrt x.num.toNat : ℚ)) * (Nat.sqrt x.num.toNat : ℚ) = (x.num : ℚ) := by
        exact_mod_cast congrArg (fun z : ℤ => (z : ℚ)) hc1
      have h2 : ((Nat.sqrt x.den : ℚ)) * (Nat.sqrt x.den : ℚ) = (x.den : ℚ) := by
        exact_mod_cast congrArg (fun n : ℕ => (n : ℚ)) hc2
      rw [div_mul_div_comm, h1, h2, Rat.num_div_den]
    · exact div_nonneg (Nat.cast_nonneg _) (Nat.cast_nonneg _)
  case isFalse => exact absurd h (by simp)

/-- A pair with nonzero leading coefficient is already trimmed. -/
theorem trim_pair {k m : ℚ} (hm : m ≠ 0) : trim [k, m] = [k, m] := by
  simp [trim, List.dropWhile_cons, hm]

/-- A triple with nonzero leading coefficient is already trimmed. -/
theorem trim_triple {c b a : ℚ} (ha : a ≠ 0) : trim [c, b, a] = [c, b, a] := by
  simp [trim, List.dropWhile_cons, ha]

/-- Degree of a nondegenerate linear expression. -/
theorem degOf_pair {k m : ℚ} (hm : m ≠ 0) : degOf [k, m] = some 1 := by
  rw [degOf, trim_pair hm]
  rfl

/-- Degree of a nondegenerate quadratic expression. -/
theorem degOf_triple {c b a : ℚ} (ha : a ≠ 0) : degOf [c, b, a] = some 2 := by
  rw [degOf, trim_triple ha]
  rfl

/-- The solver on a nondegenerate linear expression. -/
theorem sp_solve_pair {k m : ℚ} (hm : m ≠ 0) : sp_solve [k, m] = [SymVal.rat (-k / m)] := by
  rw [sp_solve, trim_pair hm]
  rfl

/-- The solver on a nondegenerate quadratic expression. -/
theorem sp_solve_triple {c b a : ℚ} (ha : a ≠ 0) :
    sp_solve [c, b, a] = solveTrimmed [c, b, a] := by
  rw [sp_solve, trim_triple ha]

/-- The full back end on a nondegenerate linear expression `m·x + k`. -/
theorem stage2_lin_solve {k m : ℚ} (hm : m ≠ 0) :
    stage2 [k, m] .linear =
      .ok ([SymVal.rat (-k / m)],
        "Решение уравнения:\nx = " ++ format_solution (SymVal.rat (-k / m))) := by
  rw [stage2_lin_ok (by rw [degOf_pair hm]; rfl), sp_solve_pair hm]
  rfl

/-- Stripping the canonical linear input changes nothing: it starts and
ends with a digit. -/
theorem strip_mkLin (a b c : ℕ) : strip (mkLinChars a b c) = mkLinChars a b c := by
  obtain ⟨d1, t1, hd1⟩ := List.exists_cons_of_ne_nil (natToChars_ne_nil a)
  have hm1 : d1 ∈ natToChars a := by
    rw [hd1]
    exact List.mem_cons_self _ _
  have hsplit : mkLinChars a b c =
      (natToChars a ++ '*' :: 'x' :: ' ' :: '+' :: ' ' ::
        (natToChars b ++ [' ', '=', ' '])) ++ natToChars c := by
    simp [mkLinChars, List.append_assoc]
  obtain ⟨d2, t2, hd2, hm2⟩ := rev_head (natToChars_ne_nil c)
  refine strip_of_ends
    ⟨d1, t1 ++ '*' :: 'x' :: ' ' :: '+' :: ' ' ::
        (natToChars b ++ ' ' :: '=' :: ' ' :: natToChars c), ?_,
      (natToChars_all a d1 hm1).1⟩
    ⟨d2, t2 ++ (natToChars a ++ '*' :: 'x' :: ' ' :: '+' :: ' ' ::
        (natToChars b ++ [' ', '=', ' '])).reverse, ?_,
      (natToChars_all c d2 hm2).1⟩
  · rw [mkLinChars, hd1, List.cons_append]
  · rw [hsplit, List.reverse_append, hd2, List.cons_append]

/-- The canonical linear input contains an equals sign. -/
theorem mem_eq_mkLin (a b c : ℕ) : '=' ∈ mkLinChars a b c := by
  simp [mkLinChars]

/-- Splitting the canonical linear input at its (first) `=`. -/
theorem split_mkLin (a b c : ℕ) :
    (mkLinChars a b c).takeWhile (fun ch => ch ≠ '=') =
      natToChars a ++ '*' :: 'x' :: ' ' :: '+' :: ' ' :: (natToChars b ++ [' ']) ∧
    ((mkLinChars a b c).dropWhile (fun ch => ch ≠ '=')).tail = ' ' :: natToChars c := by
  have hA : ∀ ch ∈ natToChars a, (decide (ch ≠ '=')) = true :=
    fun ch h => decide_eq_true (natToChars_all a ch h).2
  have hB : ∀ ch ∈ natToChars b, (decide (ch ≠ '=')) = true :=
    fun ch h => decide_eq_true (natToChars_all b ch h).2
  constructor
  · rw [mkLinChars, takeWhile_all_append _ _ hA, List.takeWhile_cons, if_pos (by decide),
      List.takeWhile_cons, if_pos (by decide), List.takeWhile_cons, if_pos (by decide),
      List.takeWhile_cons, if_pos (by decide), List.takeWhile_cons, if_pos (by decide),
      takeWhile_all_append _ _ hB, List.takeWhile_cons, if_pos (by decide),
      List.takeWhile_cons, if_neg (by decide)]
  · rw [mkLinChars, dropWhile_all_append _ _ hA, List.dropWhile_cons, if_pos (by decide),
      List.dropWhile_cons, if_pos (by decide), List.dropWhile_cons, if_pos (by decide),
      List.dropWhile_cons, if_pos (by decide), List.dropWhile_cons, if_pos (by decide),
      dropWhile_all_append _ _ hB, List.dropWhile_cons, if_pos (by decide),
      List.dropWhile_cons, if_neg (by decide)]
    rfl

/-- Tokenization glue for `parseChars`. -/
theorem parseChars_ok {cs : List Char} {t1 : List Tok1} (h : pass1 cs = .ok t1) :
    parseChars cs = parseToks t1 := by
  unfold parseChars
  rw [h]

/-- Parsing glue for `parseStage`. -/
theorem parseStage_ok {l r : List Char} {pl pr : List ℚ} {ty : EqType}
    (hl : parseChars l = .ok pl) (hr : parseChars r = .ok pr) :
    parseStage l r ty = stage2 (pSub pl pr) ty := by
  unfold parseStage
  rw [hl, hr]

/-- Parsing the left side `"a*x + b "` of the canonical linear input. -/
theorem parseChars_lhs (a b : ℕ) :
    parseChars (natToChars a ++ '*' :: 'x' :: ' ' :: '+' :: ' ' :: (natToChars b ++ [' '])) =
      .ok (pAdd (pMul [(a : ℚ)] [0, 1]) [(b : ℚ)]) := by
  obtain ⟨da, dsa, hA⟩ := List.exists_cons_of_ne_nil (@natDigits_ne_nil a a)
  obtain ⟨db, dsb, hB⟩ := List.exists_cons_of_ne_nil (@natDigits_ne_nil b b)
  have hA10 : ∀ d ∈ da :: dsa, d < 10 := by
    rw [← hA]
    exact natDigits_lt _ _
  have hB10 : ∀ d ∈ db :: dsb, d < 10 := by
    rw [← hB]
    exact natDigits_lt _ _
  have hvA : (da :: dsa).foldl (fun ac k => ac * 10 + k) 0 = a := by
    have := natDigits_val (a + 1) a 0 (lt_ten_pow a)
    rw [hA] at this
    simpa using this
  have hvB : (db :: dsb).foldl (fun ac k => ac * 10 + k) 0 = b := by
    have := natDigits_val (b + 1) b 0 (lt_ten_pow b)
    rw [hB] at this
    simpa using this
  have hp1 : pass1
      (natToChars a ++ '*' :: 'x' :: ' ' :: '+' :: ' ' :: (natToChars b ++ [' '])) =
      .ok ((da :: dsa).map Tok1.digit ++ .star :: .var :: .space :: .plus :: .space ::
        ((db :: dsb).map Tok1.digit ++ [.space])) := by
    rw [natToChars, natToChars, hA, hB]
    exact pass1_append_ok (pass1_digit_list hA10)
      (pass1_cons_ok (by decide) (pass1_cons_ok (by decide) (pass1_cons_ok (by decide)
        (pass1_cons_ok (by decide) (pass1_cons_ok (by decide)
          (pass1_append_ok (pass1_digit_list hB10) (by decide)))))))
  have hadj : checkAdj ((da :: dsa).map Tok1.digit ++ .star :: .var :: .space :: .plus ::
      .space :: ((db :: dsb).map Tok1.digit ++ [.space])) = true := by
    rw [checkAdj_digits]
    simp [checkAdj, adjOK, checkAdj_digits]
  have hmerge : mergeDigits none ((da :: dsa).map Tok1.digit ++ .star :: .var :: .space ::
      .plus :: .space :: ((db :: dsb).map Tok1.digit ++ [.space])) =
      [.num a, .star, .var, .space, .plus, .space, .num b, .space] := by
    rw [mergeDigits_run, hvA]
    show Tok.num a :: Tok.star :: Tok.var :: Tok.space :: Tok.plus :: Tok.space ::
      mergeDigits none ((db :: dsb).map Tok1.digit ++ [.space]) = _
    rw [mergeDigits_run, hvB]
    rfl
  rw [parseChars_ok hp1]
  unfold parseToks
  rw [if_pos hadj, hmerge]
  rfl

/-- Parsing the right side `" c"` of the canonical linear input. -/
theorem parseChars_rhs (c : ℕ) :
    parseChars (' ' :: natToChars c) = .ok [(c : ℚ)] := by
  obtain ⟨dc, dsc, hC⟩ := List.exists_cons_of_ne_nil (@natDigits_ne_nil c c)
  have hC10 : ∀ d ∈ dc :: dsc, d < 10 := by
    rw [← hC]
    exact natDigits_lt _ _
  have hvC : (dc :: dsc).foldl (fun ac k => ac * 10 + k) 0 = c := by
    have := natDigits_val (c + 1) c 0 (lt_ten_pow c)
    rw [hC] at this
    simpa using this
  have hp1 : pass1 (' ' :: natToChars c) = .ok (.space :: (dc :: dsc).map Tok1.digit) := by
    rw [natToChars, hC]
    exact pass1_cons_ok (by decide) (pass1_digit_list hC10)
  have hadj : checkAdj (.space :: (dc :: dsc).map Tok1.digit) = true := by
    rw [show checkAdj (.space :: (dc :: dsc).map Tok1.digit) =
      checkAdj ((dc :: dsc).map Tok1.digit ++ []) from by
        simp [checkAdj, adjOK], checkAdj_digits]
    rfl
  have hmerge : mergeDigits none (.space :: (dc :: dsc).map Tok1.digit) =
      [.space, .num c] := by
    show Tok.space :: mergeDigits none ((dc :: dsc).map Tok1.digit) = _
    rw [show ((dc :: dsc).map Tok1.digit) = (dc :: dsc).map Tok1.digit ++ [] from
      (List.append_nil _).symm, mergeDigits_run, hvC]
    rfl
  rw [parseChars_ok hp1]
  unfold parseToks
  rw [if_pos hadj, hmerge]
  rfl

/-! ### Claims -/

/-- C1: for every linear input of the form `a*x + b = c` (decimal
numerals) with `a ≠ 0`, evaluation under declared type Linear succeeds
and returns exactly one root, equal to `(c - b) / a`, rendered through
the 4-significant-digit formatter; in particular `"3*x + 2 = 0"` yields
`x = -0.6667`. -/
theorem c1_linear (a b c : ℕ) (ha : a ≠ 0) :
    evaluate (mkLin a b c) .linear =
      .ok ([SymVal.rat (((c : ℚ) - b) / a)],
        "Решение уравнения:\nx = " ++ format_solution (SymVal.rat (((c : ℚ) - b) / a))) ∧
    evaluate "3*x + 2 = 0" .linear =
      .ok ([SymVal.rat (-2 / 3)], "Решение уравнения:\nx = -0.6667") := by
  have haQ : (a : ℚ) ≠ 0 := Nat.cast_ne_zero.2 ha
  refine ⟨?_, by decide⟩
  have hmem : '=' ∈ mkLinChars a b c := mem_eq_mkLin a b c
  have hstart : evaluate (mkLin a b c) .linear = evalChars (mkLinChars a b c) .linear := rfl
  rw [hstart]
  simp only [evalChars]
  rw [strip_mkLin, if_neg (by simpa using List.ne_nil_of_mem hmem),
    if_neg (not_not_intro hmem), (split_mkLin a b c).1, (split_mkLin a b c).2,
    parseStage_ok (parseChars_lhs a b) (parseChars_rhs c)]
  have hpoly : pSub (pAdd (pMul [(a : ℚ)] [0, 1]) [(b : ℚ)]) [(c : ℚ)] =
      [(b : ℚ) - c, (a : ℚ)] := by
    show [(a : ℚ) * 0 + 0 + (b : ℚ) + -(c : ℚ), (a : ℚ) * 1] = [(b : ℚ) - c, (a : ℚ)]
    simp only [List.cons.injEq, and_true]
    exact ⟨by ring, by ring⟩
  rw [hpoly, stage2_lin_solve haQ,
    show -((b : ℚ) - c) / a = ((c : ℚ) - b) / a from by ring]

/-- Witness for C1: the concrete scenario `"3*x + 2 = 0"` under Linear. -/
theorem c1_linear_witness :
    evaluate "3*x + 2 = 0" .linear =
      .ok ([SymVal.rat (-2 / 3)], "Решение уравнения:\nx = -0.6667") := by
  have h := (c1_linear 3 2 0 (by norm_num)).1
  rw [show mkLin 3 2 0 = "3*x + 2 = 0" from by decide] at h
  exact h.trans (by decide)

/-- C2: for every quadratic `a·x² + b·x + c = 0` with `a ≠ 0` evaluated
under declared type Quadratic: a positive discriminant yields exactly two
distinct roots, matching the quadratic formula, rendered as `x1`/`x2`; a
zero discriminant yields exactly one root rendered once with the
"multiple root" label, not as two identical entries; in particular
`"x**2 - 4*x + 4 = 0"` yields the single repeated root `x = 2.000`. -/
theorem c2_quadratic (a b c : ℚ) (ha : a ≠ 0) :
    (0 < b * b - 4 * a * c →
      ∃ v1 v2 : SymVal,
        sp_solve [c, b, a] = [v1, v2] ∧
        stage2 [c, b, a] .quadratic = .ok ([v1, v2],
          "Корни уравнения:\nx1 = " ++ format_solution v1 ++ "\nx2 = " ++
            format_solution v2) ∧
        v1.val ≠ v2.val ∧
        ({v1.val, v2.val} : Set ℝ) =
          {(-(b : ℝ) - Real.sqrt ((b : ℝ) * b - 4 * a * c)) / (2 * a),
           (-(b : ℝ) + Real.sqrt ((b : ℝ) * b - 4 * a * c)) / (2 * a)}) ∧
    (b * b - 4 * a * c = 0 →
      stage2 [c, b, a] .quadratic = .ok ([SymVal.rat (-b / (2 * a))],
        "Корень уравнения (кратный):\nx = " ++
          format_solution (SymVal.rat (-b / (2 * a))))) ∧
    evaluate "x**2 - 4*x + 4 = 0" .quadratic =
      .ok ([SymVal.rat 2], "Корень уравнения (кратный):\nx = 2.000") := by
  have h2a : (2 * a : ℚ) ≠ 0 := mul_ne_zero two_ne_zero ha
  have h2aR : ((2 : ℝ) * (a : ℚ)) ≠ 0 := by exact_mod_cast h2a
  refine ⟨?_, ?_, by decide⟩
  · intro h
    have hne : b * b - 4 * a * c ≠ 0 := ne_of_gt h
    have hDcast : (((b * b - 4 * a * c : ℚ)) : ℝ) = (b : ℝ) * b - 4 * a * c := by
      push_cast
      ring
    cases hsq : ratSqrtQ (b * b - 4 * a * c) with
    | some s =>
      obtain ⟨hss, hs0⟩ := ratSqrtQ_sound hsq
      have hsR : Real.sqrt ((b : ℝ) * b - 4 * a * c) = (s : ℝ) := by
        have hcast : ((s : ℝ)) * (s : ℝ) = (b : ℝ) * b - 4 * a * c := by
          rw [← hDcast]
          exact_mod_cast congrArg (fun z : ℚ => (z : ℝ)) hss
        rw [show ((b : ℝ) * b - 4 * a * c) = ((s : ℝ)) ^ 2 by rw [sq]; exact hcast.symm,
          Real.sqrt_sq (by exact_mod_cast hs0)]
      have hs_ne : s ≠ 0 := by
        intro h0
        rw [h0, mul_zero] at hss
        exact hne hss.symm
      have hs_pos : 0 < s := lt_of_le_of_ne hs0 (Ne.symm hs_ne)
      have hroots_ne : ((-b - s) / (2 * a) : ℚ) ≠ ((-b + s) / (2 * a)) := by
        intro heq
        have : (-b - s) = (-b + s) := (div_left_inj' h2a).1 heq
        have : s = 0 := by linarith
        exact hs_ne this
      have e1 : (SymVal.rat ((-b - s) / (2 * a))).val =
          (-(b : ℝ) - Real.sqrt ((b : ℝ) * b - 4 * a * c)) / (2 * a) := by
        simp only [SymVal.val, hsR]
        push_cast
        ring
      have e2 : (SymVal.rat ((-b + s) / (2 * a))).val =
          (-(b : ℝ) + Real.sqrt ((b : ℝ) * b - 4 * a * c)) / (2 * a) := by
        simp only [SymVal.val, hsR]
        push_cast
        ring
      have hvne : (SymVal.rat ((-b - s) / (2 * a))).val ≠
          (SymVal.rat ((-b + s) / (2 * a))).val := by
        simp only [SymVal.val]
        exact fun hh => hroots_ne (Rat.cast_injective hh)
      by_cases hap : 0 < a
      · have hlist : solveTrimmed [c, b, a] =
            [SymVal.rat ((-b - s) / (2 * a)), SymVal.rat ((-b + s) / (2 * a))] := by
          simp only [solveTrimmed, hsq, if_neg hne, if_pos hap]
        refine ⟨_, _, by rw [sp_solve_triple ha, hlist], ?_, hvne, ?_⟩
        · rw [stage2_quad_ok (degOf_triple ha), sp_solve_triple ha, hlist]
          rfl
        · rw [e1, e2]
      · have hlist : solveTrimmed [c, b, a] =
            [SymVal.rat ((-b + s) / (2 * a)), SymVal.rat ((-b - s) / (2 * a))] := by
          simp only [solveTrimmed, hsq, if_neg hne, if_neg hap]
        refine ⟨_, _, by rw [sp_solve_triple ha, hlist], ?_, hvne.symm, ?_⟩
        · rw [stage2_quad_ok (degOf_triple ha), sp_solve_triple ha, hlist]
          rfl
        · rw [e1, e2, Set.pair_comm]
    | none =>
      have hDpos : (0 : ℝ) < (b : ℝ) * b - 4 * a * c := by
        rw [← hDcast]
        exact_mod_cast h
      have hsqrt_pos : 0 < Real.sqrt ((b : ℝ) * b - 4 * a * c) := Real.sqrt_pos.2 hDpos
      have hq0 : ((1 / (2 * a) : ℚ) : ℝ) ≠ 0 := by
        rw [Rat.cast_ne_zero]
        exact one_div_ne_zero h2a
      have e1 : (SymVal.quad (-b / (2 * a)) (-(1 / (2 * a))) (b * b - 4 * a * c)).val =
          (-(b : ℝ) - Real.sqrt ((b : ℝ) * b - 4 * a * c)) / (2 * a) := by
        simp only [SymVal.val, hDcast]
        push_cast
        field_simp
        ring
      have e2 : (SymVal.quad (-b / (2 * a)) (1 / (2 * a)) (b * b - 4 * a * c)).val =
          (-(b : ℝ) + Real.sqrt ((b : ℝ) * b - 4 * a * c)) / (2 * a) := by
        simp only [SymVal.val, hDcast]
        push_cast
        field_simp
        ring
      have hvne : (SymVal.quad (-b / (2 * a)) (-(1 / (2 * a))) (b * b - 4 * a * c)).val ≠
          (SymVal.quad (-b / (2 * a)) (1 / (2 * a)) (b * b - 4 * a * c)).val := by
        rw [e1, e2]
        intro heq
        have h' : (-(b : ℝ) - Real.sqrt ((b : ℝ) * b - 4 * a * c)) =
            (-(b : ℝ) + Real.sqrt ((b : ℝ) * b - 4 * a * c)) :=
          (div_left_inj' h2aR).1 heq
        have : Real.sqrt ((b : ℝ) * b - 4 * a * c) = 0 := by linarith
        exact absurd this (ne_of_gt hsqrt_pos)
      by_cases hap : 0 < a
      · have hlist : solveTrimmed [c, b, a] =
            [SymVal.quad (-b / (2 * a)) (-(1 / (2 * a))) (b * b - 4 * a * c),
             SymVal.quad (-b / (2 * a)) (1 / (2 * a)) (b * b - 4 * a * c)] := by
          simp only [solveTrimmed, hsq, if_neg hne, if_pos hap]
        refine ⟨_, _, by rw [sp_solve_triple ha, hlist], ?_, hvne, ?_⟩
        · rw [stage2_quad_ok (degOf_triple ha), sp_solve_triple ha, hlist]
          rfl
        · rw [e1, e2]
      · have hlist : solveTrimmed [c, b, a] =
            [SymVal.quad (-b / (2 * a)) (1 / (2 * a)) (b * b - 4 * a * c),
             SymVal.quad (-b / (2 * a)) (-(1 / (2 * a))) (b * b - 4 * a * c)] := by
          simp only [solveTrimmed, hsq, if_neg hne, if_neg hap]
        refine ⟨_, _, by rw [sp_solve_triple ha, hlist], ?_, hvne.symm, ?_⟩
        · rw [stage2_quad_ok (degOf_triple ha), sp_solve_triple ha, hlist]
          rfl
        · rw [e1, e2, Set.pair_comm]
  · intro h0
    have hlist : solveTrimmed [c, b, a] = [SymVal.rat (-b / (2 * a))] := by
      simp only [solveTrimmed, if_pos h0]
    rw [stage2_quad_ok (degOf_triple ha), sp_solve_triple ha, hlist]
    rfl

/-- Witness for C2: `x² - 4x + 4` has zero discriminant and one repeated
root 2; `x² - 4` has positive discriminant and two distinct real roots. -/
theorem c2_quadratic_witness :
    stage2 [(4 : ℚ), -4, 1] .quadratic =
      .ok ([SymVal.rat 2], "Корень уравнения (кратный):\nx = 2.000") ∧
    (∃ v1 v2 : SymVal, sp_solve [(-4 : ℚ), 0, 1] = [v1, v2] ∧ v1.val ≠ v2.val) := by
  constructor
  · exact ((c2_quadratic 1 (-4) 4 (by norm_num)).2.1 (by norm_num)).trans (by decide)
  · obtain ⟨v1, v2, h1, _, h3, _⟩ := (c2_quadratic 1 0 (-4) (by norm_num)).1 (by norm_num)
    exact ⟨v1, v2, h1, h3⟩

/-- C3: under declared type Linear a computed degree exceeding 1 fails
with the "not linear" `TypeMismatchError`; under Quadratic any degree
other than 2 fails with the "not quadratic" `TypeMismatchError`; degree 0
under Linear is accepted and passed to the solve step. -/
theorem c3_degree_check (p : List ℚ) :
    ((∃ k, degOf p = some k ∧ 1 < k) → stage2 p .linear = .error .notLinear) ∧
    (degOf p ≠ some 2 → stage2 p .quadratic = .error .notQuadratic) ∧
    (degOf p = some 0 → stage2 p .linear = .ok (sp_solve p, formatOut .linear (sp_solve p))) := by
  refine ⟨?_, ?_, ?_⟩
  · rintro ⟨k, hk, hk1⟩
    unfold stage2
    rw [if_pos ⟨rfl, by rw [hk]; simpa [degGT1] using hk1⟩]
  · intro h
    unfold stage2
    rw [if_neg (by simp), if_pos ⟨rfl, h⟩]
  · intro h
    exact stage2_lin_ok (by rw [h]; rfl)

/-- Witness for C3: `x²` declared Linear is rejected, `x` declared
Quadratic is rejected, the constant 5 declared Linear reaches the solver. -/
theorem c3_degree_check_witness :
    stage2 [(0 : ℚ), 0, 1] .linear = .error .notLinear ∧
    stage2 [(0 : ℚ), 1] .quadratic = .error .notQuadratic ∧
    stage2 [(5 : ℚ)] .linear = .ok ([], "Уравнение не имеет решений") := by
  refine ⟨(c3_degree_check _).1 ⟨2, by decide, by decide⟩,
    (c3_degree_check _).2.1 (by decide), ?_⟩
  exact ((c3_degree_check [(5 : ℚ)]).2.2 (by decide)).trans (by decide)

/-- C4: evaluation first strips the text, fails with the empty-input
error if the stripped text is blank, fails with the missing-equals error
if no `=` is present, and otherwise splits at the first `=` into left and
right substrings which are handed to the parsing stage. -/
theorem c4_validation (s : String) (ty : EqType) :
    (strip s.data = [] → evaluate s ty = .error .emptyInput) ∧
    (strip s.data ≠ [] → '=' ∉ strip s.data → evaluate s ty = .error .missingEquals) ∧
    ('=' ∈ strip s.data →
      ∃ l r, strip s.data = l ++ '=' :: r ∧ '=' ∉ l ∧ evaluate s ty = parseStage l r ty) := by
  refine ⟨?_, ?_, ?_⟩
  · intro h
    simp [evaluate, evalChars, h]
  · intro h1 h2
    simp [evaluate, evalChars, h1, h2]
  · intro h
    have hne : strip s.data ≠ [] := List.ne_nil_of_mem h
    refine ⟨_, _, (split_first h).1, (split_first h).2, ?_⟩
    simp [evaluate, evalChars, hne, h]

/-- Witness for C4: all-blank input gives the empty-input error, input
without `=` gives the missing-equals error. -/
theorem c4_validation_witness :
    evaluate "   " .linear = .error .emptyInput ∧
    evaluate "x + 1" .quadratic = .error .missingEquals := by
  constructor
  · exact (c4_validation "   " .linear).1 (by decide)
  · exact (c4_validation "x + 1" .quadratic).2.1 (by decide) (by decide)

/-- C5 (code evaluated at the failing input): implicit multiplication is
supported (`"2x = 0"` solves to `x = 0`) and `**` is supported, but `^`
is NOT converted to exponentiation — `convert_xor` is missing from the
transformations, contradicting the comment on lines 36–37 of
`src/main.py` — so `"x^2 = 0"` fails with a parse-stage error instead of
yielding the repeated root `x = 0`. -/
theorem c5_caret_not_supported :
    evaluate "2x = 0" .linear = .ok ([SymVal.rat 0], "Решение уравнения:\nx = 0") ∧
    evaluate "x**2 = 0" .quadratic =
      .ok ([SymVal.rat 0], "Корень уравнения (кратный):\nx = 0") ∧
    evaluate "x^2 = 0" .quadratic = .error (.parseError xorMsg) ∧
    solveText "x^2 = 0" .quadratic = "Ошибка: Xor of non-Boolean arguments" := by
  exact ⟨by decide, by decide, by decide, by decide⟩

/-- C6 counterexample: on the tautology `"x = x"` the evaluator does NOT
fail closed with a descriptive error — `sp.solve` returns the empty list
and the evaluator emits the "no solutions" message. -/
theorem c6_tautology_counterexample :
    evaluate "x = x" .linear = .ok ([], "Уравнение не имеет решений") := by decide

/-- C6 (amended): every successfully solved equation with an empty
solution set — including degenerate degree-0 cases such as the tautology
`"x = x"` and the contradiction `"x + 1 = x + 2"` — is reported with the
"no solutions" message, not with a distinct fail-closed error. -/
theorem c6_empty_solutions :
    (∀ (p : List ℚ) (ty : EqType), ¬(ty = .linear ∧ degGT1 (degOf p)) →
      ¬(ty = .quadratic ∧ degOf p ≠ some 2) → sp_solve p = [] →
      stage2 p ty = .ok ([], "Уравнение не имеет решений")) ∧
    evaluate "x = x" .linear = .ok ([], "Уравнение не имеет решений") ∧
    evaluate "x + 1 = x + 2" .linear = .ok ([], "Уравнение не имеет решений") := by
  refine ⟨fun p ty h1 h2 h0 => ?_, by decide, by decide⟩
  rw [stage2_pass h1 h2, h0, formatOut_nil]

/-- Witness for C6: the degree-0 contradiction `-1 = 0` reaches the
solver and is reported as having no solutions. -/
theorem c6_empty_solutions_witness :
    stage2 [(-1 : ℚ)] .linear = .ok ([], "Уравнение не имеет решений") :=
  c6_empty_solutions.1 [(-1 : ℚ)] .linear (by decide) (by decide) (by decide)

/-- C7: `format_solution` attempts the numeric reduction and returns its
string on success; when the reduction fails it returns the raw symbolic
string; it is a total `String`-valued function — no input makes it
raise. -/
theorem c7_format_total (v : SymVal) :
    (∀ s, spN v = .ok s → format_solution v = s) ∧
    (∀ e, spN v = .error e → format_solution v = SymVal.str v) := by
  constructor
  · intro s h
    unfold format_solution
    rw [h]
  · intro e h
    unfold format_solution
    rw [h]

/-- Witness for C7: a non-numeric symbolic value degrades to its raw
string, a numeric one is rendered at 4 significant digits. -/
theorem c7_format_total_witness :
    format_solution (SymVal.sym "x + y") = "x + y" ∧
    format_solution (SymVal.rat 2) = "2.000" := by
  constructor
  · exact ((c7_format_total (SymVal.sym "x + y")).2 "cannot reduce to a number" rfl).trans rfl
  · exact ((c7_format_total (SymVal.rat 2)).1 (fmt4 2) rfl).trans (by decide)

/-- C8: for every input and declared type, the result-label text is
either the success message of the pipeline or the single generic
`"Ошибка: " ++ message` string wrapping the underlying error message —
no raw internal error escapes `solve`. -/
theorem c8_catch_all (txt : String) (ty : EqType) :
    (∃ out, evaluate txt ty = .ok out ∧ solveText txt ty = out.2) ∨
    (∃ e, evaluate txt ty = .error e ∧ solveText txt ty = "Ошибка: " ++ e.msg) := by
  cases h : evaluate txt ty with
  | ok out =>
    obtain ⟨sols, msg⟩ := out
    exact .inl ⟨(sols, msg), rfl, by simp [solveText, h]⟩
  | error e =>
    exact .inr ⟨e, rfl, by simp [solveText, h]⟩

/-- C9 counterexample: initially exactly one box is active, but the
toggle step that deactivates the currently active Linear box leaves NO
box active — the exactly-one invariant is not preserved by every
checkbox-toggle step. -/
theorem c9_toggle_counterexample :
    exclOne initState = true ∧ exclOne (clickLinear initState) = false := by decide

/-- C9 (amended): initially exactly the Linear box is active; activating
either box deselects the other, so a click on an inactive box always
yields exactly one active box, and every reachable state has AT MOST one
active box; deactivating the currently active box, however, leaves no box
active. -/
theorem c9_at_most_one :
    exclOne initState = true ∧
    (∀ s, Reachable s → atMostOne s = true) ∧
    (∀ s, s.linear_active = false → exclOne (clickLinear s) = true) ∧
    (∀ s, s.quadratic_active = false → exclOne (clickQuadratic s) = true) := by
  refine ⟨rfl, ?_, ?_, ?_⟩
  · intro s hs
    induction hs with
    | init => rfl
    | lin _ _ => exact atMostOne_clickLinear _
    | quad _ _ => exact atMostOne_clickQuadratic _
    | clear _ ih => exact ih
    | solved _ ih => exact ih
    | typed t _ ih => exact ih
  · rintro ⟨la, qa, i, r⟩ h
    cases h
    cases qa <;> rfl
  · rintro ⟨la, qa, i, r⟩ h
    cases h
    cases la <;> rfl

/-- Witness for C9: the initial state is reachable and has at most one
active box; clicking Linear when it is inactive restores exactly one. -/
theorem c9_at_most_one_witness :
    atMostOne initState = true ∧
    exclOne (clickLinear
      { linear_active := false, quadratic_active := false,
        equation_input := "", result_label := "" }) = true := by
  constructor
  · exact c9_at_most_one.2.1 initState Reachable.init
  · exact c9_at_most_one.2.2.1 _ rfl

/-- C10: the no-argument clear action empties the input text, resets the
result label to the placeholder, and leaves both equation-type
selections unchanged, from every starting state. -/
theorem c10_clear_fields (s : UIState) :
    (clear_fields s).equation_input = "" ∧
    (clear_fields s).result_label = "Решение появится здесь" ∧
    (clear_fields s).linear_active = s.linear_active ∧
    (clear_fields s).quadratic_active = s.quadratic_active :=
  ⟨rfl, rfl, rfl, rfl⟩

